import Mathlib

/-!
Verification of the qubes event emission and handler-dispatch engine
(`qubes/events.py`).

The embedding models:
* `Handler` — a Python callable together with the attributes the engine
  inspects: `ha_events` (set by the `handler` decorator; its presence is
  what `ishandler` tests), `ha_bound` (presence is the sort key in
  `_fire_event_in_order`), and the callable's behaviour `run`, which may
  raise (`Except.error`), return `None` (`Except.ok none`) or return an
  iterable of effects (`Except.ok (some l)`).  Python compares handlers
  by object identity; the field `id` models that identity, and all set
  operations deduplicate by `id`.
* `HandlersDict` — a `collections.defaultdict(set)` mapping event name to a
  set of handlers, modelled as an association list whose values are
  duplicate-free (by `id`) lists.  Key presence (`'*' in d`) is observable,
  so it is part of the model.
* The per-node dispatch of `_fire_event_in_order`: wildcard union, the
  `sorted(..., key=hasattr(h, 'ha_bound'), reverse=True)` stable partition,
  sequential invocation with effect accumulation and exception propagation.
* `EmitterMeta.__init__`'s handler-table construction (`buildHandlers`),
  which skips members named in the class's property list before testing
  `ishandler`.
* `Emitter.add_handler` / `Emitter.remove_handler` on the instance-level
  dict, including `defaultdict` key creation and `set.remove`'s `KeyError`.

Python set iteration order is unspecified; where a claim depends only on
properties invariant under that order (partition, membership, counts) the
theorem is stated for arbitrary lists, and where a claim fixes a concrete
trace the model's list order stands in for one admissible iteration order.
-/

namespace QubesEvents

variable {ε κ : Type}

/-- A Python callable as the engine sees it.  `id` is object identity,
`isCallable` models `callable(obj)`, `ha_events` / `ha_bound` are the
attributes set by the `handler` decorator (absent = `none`), and `run`
is the call `func(self, event, **kwargs)`: it may raise an exception
(identified by a `Nat`), return `None`, or return an iterable of effects. -/
structure Handler (ε κ : Type) where
  id : Nat
  isCallable : Bool
  ha_events : Option (List String)
  ha_bound : Option Bool
  run : String → κ → Except Nat (Option (List ε))

/-- `ishandler(obj)`: callable and carrying an `ha_events` attribute. -/
def ishandler (h : Handler ε κ) : Bool :=
  h.isCallable && h.ha_events.isSome

/-- `collections.defaultdict(set)` mapping event name to handler set.
Values are lists standing for sets (deduplicated by `id` on insertion);
key presence is observable via `in`. -/
structure HandlersDict (ε κ : Type) where
  entries : List (String × List (Handler ε κ))

/-- Dict lookup: first entry with the given key, if any. -/
def HandlersDict.find (d : HandlersDict ε κ) (e : String) :
    Option (List (Handler ε κ)) :=
  (d.entries.find? (fun p => p.1 == e)).map (fun p => p.2)

/-- `d.get(e, set())`: the stored set, or the empty set for a missing key. -/
def HandlersDict.get (d : HandlersDict ε κ) (e : String) : List (Handler ε κ) :=
  (d.find e).getD []

/-- `e in d`: key presence. -/
def HandlersDict.hasKey (d : HandlersDict ε κ) (e : String) : Bool :=
  (d.find e).isSome

/-- Set membership by Python object identity. -/
def hasId (l : List (Handler ε κ)) (x : Nat) : Bool :=
  l.any (fun h => h.id == x)

/-- `set.add`: no-op when an element with the same identity is present. -/
def setAdd (l : List (Handler ε κ)) (h : Handler ε κ) : List (Handler ε κ) :=
  if hasId l h.id then l else l ++ [h]

/-- `set.remove`-style deletion of the element with identity `x`. -/
def setRemove (l : List (Handler ε κ)) (x : Nat) : List (Handler ε κ) :=
  l.filter (fun h => !(h.id == x))

/-- Rewrite the set stored under key `e` in place (keys untouched). -/
def HandlersDict.updateAt (d : HandlersDict ε κ) (e : String)
    (f : List (Handler ε κ) → List (Handler ε κ)) : HandlersDict ε κ :=
  ⟨d.entries.map (fun p => if p.1 == e then (p.1, f p.2) else p)⟩

/-- `d[e].add(h)` on a `defaultdict(set)`: creates the key when absent. -/
def HandlersDict.insert (d : HandlersDict ε κ) (e : String) (h : Handler ε κ) :
    HandlersDict ε κ :=
  if d.hasKey e then d.updateAt e (fun l => setAdd l h)
  else ⟨d.entries ++ [(e, [h])]⟩

/-- The key-creating side of `defaultdict.__getitem__`: reading `d[e]`
materialises an empty set for a missing key. -/
def HandlersDict.ensure (d : HandlersDict ε κ) (e : String) : HandlersDict ε κ :=
  if d.hasKey e then d else ⟨d.entries ++ [(e, [])]⟩

/-- `Emitter.add_handler`: `self.__handlers__[event].add(func)`. -/
def add_handler (d : HandlersDict ε κ) (e : String) (f : Handler ε κ) :
    HandlersDict ε κ :=
  d.insert e f

/-- `Emitter.remove_handler`: `self.__handlers__[event].remove(func)`.
The `defaultdict` access materialises the key even when the removal then
fails; the `Bool` component is `true` when `set.remove` raises `KeyError`
(the NotRegistered condition). -/
def remove_handler (d : HandlersDict ε κ) (e : String) (f : Handler ε κ) :
    HandlersDict ε κ × Bool :=
  let d' := d.ensure e
  if hasId (d'.get e) f.id then
    (d'.updateAt e (fun l => setRemove l f.id), false)
  else
    (d', true)

/-- Python set union `handlers_dict['*'] | handlers`, deduplicating by
identity (the left operand's copy is kept). -/
def setUnion (a b : List (Handler ε κ)) : List (Handler ε κ) :=
  a ++ b.filter (fun h => !(hasId a h.id))

/-- The candidate set at one node:
`handlers = handlers_dict.get(event, set())`, then
`if '*' in handlers_dict: handlers = handlers_dict['*'] | handlers`. -/
def candidates (d : HandlersDict ε κ) (event : String) : List (Handler ε κ) :=
  let hs := d.get event
  if d.hasKey "*" then setUnion (d.get "*") hs else hs

/-- `sorted(handlers, key=lambda h: hasattr(h, 'ha_bound'), reverse=True)`:
a stable two-way partition — handlers carrying the `ha_bound` attribute
first (in iteration order), then those lacking it. -/
def sortHandlers (l : List (Handler ε κ)) : List (Handler ε κ) :=
  l.filter (fun h => h.ha_bound.isSome) ++ l.filter (fun h => !h.ha_bound.isSome)

/-- A dispatch node: `some d` when `i.__handlers__` exists (an emitter class
or the emitter object itself), `none` when the attribute access raises
`AttributeError` (e.g. `object` in the MRO) and the node is skipped. -/
abbrev Node (ε κ : Type) := Option (HandlersDict ε κ)

/-- The handlers executed at one node, in execution order. -/
def nodeHandlers (event : String) (n : Node ε κ) : List (Handler ε κ) :=
  match n with
  | none => []
  | some d => sortHandlers (candidates d event)

/-- Truth value of `Except` success. -/
def isOkE {α β : Type} (x : Except α β) : Bool :=
  match x with
  | .ok _ => true
  | .error _ => false

/-- The inner loop of `_fire_event_in_order`: invoke each handler in turn,
recording the identities invoked; a raise aborts immediately; a `None`
return contributes nothing and any other return is extended onto the
effect list. -/
def runHandlers (event : String) (kw : κ) :
    List (Handler ε κ) → List Nat × Except Nat (List ε)
  | [] => ([], .ok [])
  | h :: t =>
    match h.run event kw with
    | .error exc => ([h.id], .error exc)
    | .ok r =>
      let rest := runHandlers event kw t
      (h.id :: rest.1, rest.2.map (fun effs => r.getD [] ++ effs))

/-- The outer loop of `_fire_event_in_order` over the traversal order. -/
def fireNodes (event : String) (kw : κ) :
    List (Node ε κ) → List Nat × Except Nat (List ε)
  | [] => ([], .ok [])
  | n :: rest =>
    let r1 := runHandlers event kw (nodeHandlers event n)
    match r1.2 with
    | .error exc => (r1.1, .error exc)
    | .ok effs =>
      let r2 := fireNodes event kw rest
      (r1.1 ++ r2.1, r2.2.map (fun es => effs ++ es))

/-- An emitter object: its `events_enabled` flag, its instance-level
`__handlers__` dict, and its class's `__mro__` as a list of nodes,
most-derived class first (Python order). -/
structure Emitter (ε κ : Type) where
  events_enabled : Bool
  instanceHandlers : HandlersDict ε κ
  mro : List (Node ε κ)

/-- The object itself as a dispatch node (its `__handlers__` always exists,
created by `Emitter.__init__`). -/
def Emitter.selfNode (em : Emitter ε κ) : Node ε κ :=
  some em.instanceHandlers

/-- `Emitter._fire_event_in_order`: the disabled guard, then the node walk.
Returns the trace of invoked handler identities together with the outcome
(`.ok effects` or the propagated exception). -/
def fire_event_in_order (em : Emitter ε κ) (order : List (Node ε κ))
    (event : String) (kw : κ) : List Nat × Except Nat (List ε) :=
  if em.events_enabled then fireNodes event kw order else ([], .ok [])

/-- `Emitter.fire_event`: order is `reversed(mro)` then the object. -/
def fire_event (em : Emitter ε κ) (event : String) (kw : κ) :
    List Nat × Except Nat (List ε) :=
  fire_event_in_order em (em.mro.reverse ++ [em.selfNode]) event kw

/-- `Emitter.fire_event_pre`: order is the object then `mro`. -/
def fire_event_pre (em : Emitter ε κ) (event : String) (kw : κ) :
    List Nat × Except Nat (List ε) :=
  fire_event_in_order em (em.selfNode :: em.mro) event kw

/-- Inner loop of `EmitterMeta.__init__`:
`for event in attr.ha_events: cls.__handlers__[event].add(attr)`. -/
def addEvents (m : Handler ε κ) :
    HandlersDict ε κ → List String → HandlersDict ε κ
  | d, [] => d
  | d, e :: es => addEvents m (d.insert e m) es

/-- Outer loop of `EmitterMeta.__init__` over the class dict: skip members
named in the property list, skip non-handlers, register the rest. -/
def buildFrom (propnames : List String) :
    HandlersDict ε κ → List (String × Handler ε κ) → HandlersDict ε κ
  | d, [] => d
  | d, (name, m) :: rest =>
    match propnames.contains name with
    | true => buildFrom propnames d rest
    | false =>
      match ishandler m with
      | true => buildFrom propnames (addEvents m d (m.ha_events.getD [])) rest
      | false => buildFrom propnames d rest

/-- `EmitterMeta.__init__`: build `cls.__handlers__` from the class's own
dict and its property-name set. -/
def buildHandlers (dict_ : List (String × Handler ε κ))
    (propnames : List String) : HandlersDict ε κ :=
  buildFrom propnames ⟨[]⟩ dict_

/-- The names whose dict values the construction inspects (applies
`ishandler` to): exactly those not excluded by the property-name set. -/
def scannedMembers (dict_ : List (String × Handler ε κ))
    (propnames : List String) : List String :=
  (dict_.map Prod.fst).filter (fun n => !(propnames.contains n))

/-- The effects a non-raising handler contributes: the elements of its
return value, or nothing for `None`. -/
def okEffects (event : String) (kw : κ) (h : Handler ε κ) : List ε :=
  match h.run event kw with
  | .ok (some l) => l
  | _ => []

/-- A heap of emitter objects for the frame claims: the immutable
class-level tables and each object's own instance-level dict. -/
structure World (ε κ : Type) where
  classTables : Nat → HandlersDict ε κ
  instances : Nat → HandlersDict ε κ

/-- `add_handler` called on object `o`: only that object's dict changes. -/
def World.addHandler (w : World ε κ) (o : Nat) (e : String) (f : Handler ε κ) :
    World ε κ :=
  { classTables := w.classTables
    instances := fun o' =>
      if o' = o then add_handler (w.instances o') e f else w.instances o' }

/-- `remove_handler` called on object `o`, with its KeyError flag. -/
def World.removeHandler (w : World ε κ) (o : Nat) (e : String)
    (f : Handler ε κ) : World ε κ × Bool :=
  let r := remove_handler (w.instances o) e f
  ({ classTables := w.classTables
     instances := fun o' => if o' = o then r.1 else w.instances o' }, r.2)

/-! Concrete instances used to evaluate the theorems on explicit inputs. -/

/-- A handler that returns normally: `r = none` models `return None`,
`r = some l` models returning the iterable `l`. -/
def wOk (i : Nat) (b : Option Bool) (r : Option (List Nat)) : Handler Nat Unit :=
  ⟨i, true, some ["x"], b, fun _ _ => Except.ok r⟩

/-- A handler that raises exception `exc`. -/
def wErr (i exc : Nat) : Handler Nat Unit :=
  ⟨i, true, some ["x"], none, fun _ _ => Except.error exc⟩

/-- A class-level table: one bound handler for `"x"` returning `[1, 2]`. -/
def clsDictW : HandlersDict Nat Unit :=
  ⟨[("x", [wOk 1 (some true) (some [1, 2])])]⟩

/-- An instance-level dict: one unbound handler for `"x"` returning `[3]`. -/
def instDictW : HandlersDict Nat Unit :=
  ⟨[("x", [wOk 2 none (some [3])])]⟩

/-- An enabled emitter whose MRO has one handler-bearing class and one
class without a handler table. -/
def emW : Emitter Nat Unit := ⟨true, instDictW, [some clsDictW, none]⟩

/-- The same emitter with events disabled. -/
def emDisabledW : Emitter Nat Unit := ⟨false, instDictW, [some clsDictW, none]⟩

/-- Handler carrying the attribute `ha_bound = False`. -/
def cexF : Handler Nat Unit := wOk 1 (some false) none

/-- Handler carrying the attribute `ha_bound = True`. -/
def cexT : Handler Nat Unit := wOk 2 (some true) none

/-- Handler lacking the `ha_bound` attribute. -/
def cexN : Handler Nat Unit := wOk 3 none none

/-- A node registering the three handlers above for event `"x"`. -/
def cexD3 : HandlersDict Nat Unit := ⟨[("x", [cexF, cexT, cexN])]⟩

/-- Enabled emitter dispatching over `cexD3`. -/
def cexEm3 : Emitter Nat Unit := ⟨true, ⟨[]⟩, [some cexD3]⟩

/-- A table whose second handler raises exception `5`. -/
def errDictW : HandlersDict Nat Unit :=
  ⟨[("x", [wOk 1 (some true) (some [7]), wErr 2 5, wOk 3 none none])]⟩

/-- Enabled emitter whose only handlers live on the instance: one
succeeding, one raising, one never reached. -/
def emErrW : Emitter Nat Unit := ⟨true, errDictW, []⟩

/-- A table with a specific handler for `"x"` and a wildcard handler. -/
def wildDictW : HandlersDict Nat Unit :=
  ⟨[("x", [wOk 1 (some true) (some [1, 2])]), ("*", [wOk 9 none (some [9])])]⟩

/-- A marked member whose name collides with a declared property name. -/
def memProp : Handler Nat Unit := wOk 4 (some true) none

/-- A marked member registered normally. -/
def memH : Handler Nat Unit := wOk 5 (some true) none

/-- A class dict declaring both members above. -/
def dictW7 : List (String × Handler Nat Unit) := [("p", memProp), ("h", memH)]

/-- The handler used for the registration counterexample. -/
def cf8 : Handler Nat Unit := wOk 5 none none

/-- An instance dict on which `cf8` is already registered for `"x"`. -/
def cexD8 : HandlersDict Nat Unit := ⟨[("x", [cf8])]⟩

/-- A world of emitters with empty tables everywhere. -/
def worldW : World Nat Unit := ⟨fun _ => ⟨[]⟩, fun _ => ⟨[]⟩⟩

/-- A node registering the same handler identity under `"x"` and `"*"`. -/
def dupDictW : HandlersDict Nat Unit :=
  ⟨[("x", [wOk 7 (some true) none]), ("*", [wOk 7 (some true) none])]⟩

end QubesEvents

/-! Dictionary-level lemmas. -/

namespace QubesEvents

variable {ε κ : Type}

theorem beq_flip (a b : String) : (a == b) = (b == a) := by
  by_cases h : a = b
  · subst h; rfl
  · rw [Bool.eq_iff_iff]
    simp only [beq_iff_eq]
    exact ⟨fun hab => absurd hab h, fun hba => absurd hba.symm h⟩

theorem hasId_iff {l : List (Handler ε κ)} {x : Nat} :
    hasId l x = true ↔ ∃ h ∈ l, h.id = x := by
  simp [hasId, List.any_eq_true]

theorem hasId_eq_false_iff {l : List (Handler ε κ)} {x : Nat} :
    hasId l x = false ↔ ∀ h ∈ l, h.id ≠ x := by
  rw [← Bool.not_eq_true, hasId_iff]
  push_neg
  exact Iff.rfl

theorem find_eq_none_of_not_hasKey (d : HandlersDict ε κ) (e : String)
    (h : d.hasKey e = false) : d.find e = none := by
  unfold HandlersDict.hasKey at h
  cases hf : d.find e with
  | none => rfl
  | some l => rw [hf] at h; simp at h

theorem find?_map_entry
    (g : (String × List (Handler ε κ)) → (String × List (Handler ε κ)))
    (hg : ∀ p, (g p).1 = p.1) (es : List (String × List (Handler ε κ)))
    (e' : String) :
    (es.map g).find? (fun p => p.1 == e') =
      (es.find? (fun p => p.1 == e')).map g := by
  induction es with
  | nil => rfl
  | cons p rest ih =>
    simp only [List.map_cons]
    cases hp : p.1 == e' with
    | true =>
      have h1 : ((g p).1 == e') = true := by rw [hg]; exact hp
      rw [@List.find?_cons_of_pos _ (fun q => q.1 == e') (g p) (rest.map g) h1,
        @List.find?_cons_of_pos _ (fun q => q.1 == e') p rest hp]
      rfl
    | false =>
      have h1 : ¬ (((fun q : String × List (Handler ε κ) => q.1 == e')
          (g p)) = true) := by simp [hg, hp]
      have h2 : ¬ (((fun q : String × List (Handler ε κ) => q.1 == e')
          p) = true) := by simp [hp]
      rw [@List.find?_cons_of_neg _ (fun q => q.1 == e') (g p) (rest.map g) h1,
        @List.find?_cons_of_neg _ (fun q => q.1 == e') p rest h2, ih]

theorem find_updateAt (d : HandlersDict ε κ) (e : String)
    (f : List (Handler ε κ) → List (Handler ε κ)) (e' : String) :
    (d.updateAt e f).find e' =
      if e = e' then (d.find e').map f else d.find e' := by
  have hg : ∀ p : String × List (Handler ε κ),
      ((if p.1 == e then (p.1, f p.2) else p) : String × List (Handler ε κ)).1
        = p.1 := by
    intro p; split <;> rfl
  unfold HandlersDict.updateAt HandlersDict.find
  simp only
  rw [find?_map_entry (fun p => if p.1 == e then (p.1, f p.2) else p) hg]
  cases hfind : d.entries.find? (fun p => p.1 == e') with
  | none => split <;> rfl
  | some p =>
    have hp : (p.1 == e') = true :=
      @List.find?_some _ (fun q => q.1 == e') p d.entries hfind
    have hpe : p.1 = e' := beq_iff_eq.mp hp
    by_cases he : e = e'
    · subst he
      have hq : (p.1 == e) = true := by rw [beq_iff_eq]; exact hpe
      simp [hq, hpe]
    · have hq : (p.1 == e) = false := by
        rw [Bool.eq_false_iff]
        intro hcon
        exact he ((beq_iff_eq.mp hcon).symm.trans hpe)
      have hne : ¬ (p.1 = e) := by
        rw [hpe]
        exact fun hc => he hc.symm
      simp [hq, he, hne]

theorem find_mk_append (es : List (String × List (Handler ε κ))) (e : String)
    (v : List (Handler ε κ)) (e' : String) :
    (HandlersDict.mk (es ++ [(e, v)])).find e' =
      ((HandlersDict.mk es).find e').or (if e = e' then some v else none) := by
  unfold HandlersDict.find
  simp only
  rw [List.find?_append]
  cases hfind : es.find? (fun p => p.1 == e') with
  | some p => simp [hfind]
  | none =>
    simp only [hfind, Option.none_or, Option.map_none']
    by_cases he : e = e'
    · subst he
      have hq : ((e, v).1 == e) = true := by rw [beq_iff_eq]
      rw [@List.find?_cons_of_pos _ (fun q => q.1 == e) (e, v) [] hq]
      simp
    · have hq : ¬ (((fun q : String × List (Handler ε κ) => q.1 == e')
          (e, v)) = true) := by
        simp only [beq_iff_eq]
        exact he
      rw [@List.find?_cons_of_neg _ (fun q => q.1 == e') (e, v) [] hq]
      simp [he]

theorem get_updateAt_other (d : HandlersDict ε κ) (e : String)
    (f : List (Handler ε κ) → List (Handler ε κ)) (e' : String)
    (hne : e ≠ e') : (d.updateAt e f).get e' = d.get e' := by
  simp [HandlersDict.get, find_updateAt, hne]

theorem get_updateAt_self (d : HandlersDict ε κ) (e : String)
    (f : List (Handler ε κ) → List (Handler ε κ)) (h : d.hasKey e = true) :
    (d.updateAt e f).get e = f (d.get e) := by
  unfold HandlersDict.hasKey at h
  cases hfind : d.find e with
  | none => rw [hfind] at h; simp at h
  | some l => simp [HandlersDict.get, find_updateAt, hfind]

theorem ensure_of_hasKey (d : HandlersDict ε κ) (e : String)
    (h : d.hasKey e = true) : d.ensure e = d := by
  unfold HandlersDict.ensure
  simp [h]

theorem get_ensure (d : HandlersDict ε κ) (e e' : String) :
    (d.ensure e).get e' = d.get e' := by
  unfold HandlersDict.ensure
  cases hk : d.hasKey e with
  | true => simp
  | false =>
    have hn := find_eq_none_of_not_hasKey d e hk
    simp only [Bool.false_eq_true, if_false]
    by_cases he : e = e'
    · subst he
      simp [HandlersDict.get, find_mk_append, hn]
    · simp [HandlersDict.get, find_mk_append, he]

theorem hasId_setAdd (l : List (Handler ε κ)) (h : Handler ε κ) (x : Nat) :
    hasId (setAdd l h) x = (hasId l x || (h.id == x)) := by
  unfold setAdd
  split
  · next hin =>
    cases hbx : h.id == x with
    | false => simp
    | true =>
      have : h.id = x := beq_iff_eq.mp hbx
      subst this
      simp [hin]
  · simp [hasId, List.any_append]

theorem setRemove_of_not_mem (l : List (Handler ε κ)) (x : Nat)
    (h : hasId l x = false) : setRemove l x = l := by
  unfold setRemove
  rw [List.filter_eq_self]
  intro a ha
  have := hasId_eq_false_iff.mp h a ha
  simp [this]

theorem get_insert_self (d : HandlersDict ε κ) (e : String) (m : Handler ε κ) :
    (d.insert e m).get e = setAdd (d.get e) m := by
  unfold HandlersDict.insert
  cases hk : d.hasKey e with
  | true =>
    simp only [if_true]
    exact get_updateAt_self d e _ hk
  | false =>
    have hn := find_eq_none_of_not_hasKey d e hk
    have hget : d.get e = [] := by simp [HandlersDict.get, hn]
    simp only [Bool.false_eq_true, if_false]
    simp [HandlersDict.get, find_mk_append, hn, hget, setAdd, hasId]

theorem get_insert_other (d : HandlersDict ε κ) (e : String) (m : Handler ε κ)
    (e' : String) (hne : e ≠ e') : (d.insert e m).get e' = d.get e' := by
  unfold HandlersDict.insert
  cases hk : d.hasKey e with
  | true =>
    simp only [if_true]
    exact get_updateAt_other d e _ e' hne
  | false =>
    simp only [Bool.false_eq_true, if_false]
    simp [HandlersDict.get, find_mk_append, hne]

theorem hasKey_insert_self (d : HandlersDict ε κ) (e : String)
    (m : Handler ε κ) : (d.insert e m).hasKey e = true := by
  unfold HandlersDict.insert
  cases hk : d.hasKey e with
  | true =>
    simp only [if_true]
    unfold HandlersDict.hasKey at hk ⊢
    rw [find_updateAt]
    simp only [if_pos rfl]
    cases hf : d.find e with
    | none => rw [hf] at hk; simp at hk
    | some l => simp
  | false =>
    have hn := find_eq_none_of_not_hasKey d e hk
    simp only [Bool.false_eq_true, if_false]
    unfold HandlersDict.hasKey
    simp [find_mk_append, hn]

/-! Dispatch-level lemmas. -/

theorem runHandlers_append_error (ev : String) (kw : κ)
    (a b : List (Handler ε κ)) (exc : Nat)
    (ha : (runHandlers ev kw a).2 = .error exc) :
    runHandlers ev kw (a ++ b) = ((runHandlers ev kw a).1, .error exc) := by
  induction a with
  | nil => simp [runHandlers] at ha
  | cons h t ih =>
    cases hr : h.run ev kw with
    | error e =>
      simp only [runHandlers, hr] at ha ⊢
      exact congrArg (fun z => ([h.id], Except.error z)) (Except.error.inj ha)
    | ok r =>
      simp only [runHandlers, hr] at ha ⊢
      cases ht : (runHandlers ev kw t).2 with
      | error e2 =>
        rw [ht] at ha
        have he2 : e2 = exc := Except.error.inj ha
        subst he2
        rw [List.append_eq, ih ht]
        simp [Except.map]
      | ok effs => rw [ht] at ha; simp [Except.map] at ha

theorem runHandlers_append_ok (ev : String) (kw : κ)
    (a b : List (Handler ε κ)) (ea : List ε)
    (ha : (runHandlers ev kw a).2 = .ok ea) :
    runHandlers ev kw (a ++ b) =
      ((runHandlers ev kw a).1 ++ (runHandlers ev kw b).1,
       (runHandlers ev kw b).2.map (fun eb => ea ++ eb)) := by
  induction a generalizing ea with
  | nil =>
    simp only [runHandlers] at ha
    have hea : ea = [] := (Except.ok.inj ha).symm
    subst hea
    cases hb : (runHandlers ev kw b).2 <;>
      simp [runHandlers, hb, Except.map, Prod.ext_iff]
  | cons h t ih =>
    cases hr : h.run ev kw with
    | error e =>
      simp only [runHandlers, hr] at ha
      exact Except.noConfusion ha
    | ok r =>
      simp only [runHandlers, hr] at ha ⊢
      cases ht : (runHandlers ev kw t).2 with
      | error e2 => rw [ht] at ha; simp [Except.map] at ha
      | ok et =>
        rw [ht] at ha
        have hea : ea = r.getD [] ++ et := by
          simp [Except.map] at ha
          exact ha.symm
        subst hea
        rw [List.append_eq, ih et ht]
        cases hb : (runHandlers ev kw b).2 <;>
          simp [Except.map, hb, List.append_assoc]

theorem runHandlers_all_ok (ev : String) (kw : κ) (l : List (Handler ε κ))
    (hok : ∀ g ∈ l, isOkE (g.run ev kw) = true) :
    runHandlers ev kw l =
      (l.map (fun h => h.id), .ok (l.flatMap (okEffects ev kw))) := by
  induction l with
  | nil => rfl
  | cons h t ih =>
    have hh := hok h (by simp)
    cases hr : h.run ev kw with
    | error exc => rw [hr] at hh; simp [isOkE] at hh
    | ok r =>
      have ht : ∀ g ∈ t, isOkE (g.run ev kw) = true :=
        fun g hg => hok g (by simp [hg])
      have he : okEffects ev kw h = r.getD [] := by
        unfold okEffects
        rw [hr]
        cases r <;> rfl
      simp [runHandlers, hr, ih ht, List.flatMap_cons, he, Except.map]

theorem runHandlers_error_split (ev : String) (kw : κ)
    (pre : List (Handler ε κ)) (hc : Handler ε κ) (post : List (Handler ε κ))
    (exc : Nat) (hpre : ∀ g ∈ pre, isOkE (g.run ev kw) = true)
    (hr : hc.run ev kw = .error exc) :
    runHandlers ev kw (pre ++ hc :: post) =
      (pre.map (fun h => h.id) ++ [hc.id], .error exc) := by
  induction pre with
  | nil => simp [runHandlers, hr]
  | cons g t ih =>
    have hg := hpre g (by simp)
    cases hgr : g.run ev kw with
    | error e => rw [hgr] at hg; simp [isOkE] at hg
    | ok r =>
      have ht : ∀ g2 ∈ t, isOkE (g2.run ev kw) = true :=
        fun g2 hg2 => hpre g2 (by simp [hg2])
      simp [runHandlers, hgr, ih ht, Except.map]

theorem fireNodes_eq_runHandlers (ev : String) (kw : κ)
    (order : List (Node ε κ)) :
    fireNodes ev kw order =
      runHandlers ev kw (order.flatMap (nodeHandlers ev)) := by
  induction order with
  | nil => rfl
  | cons n rest ih =>
    rw [List.flatMap_cons]
    cases hr : (runHandlers ev kw (nodeHandlers ev n)).2 with
    | error exc =>
      rw [runHandlers_append_error ev kw _ _ exc hr]
      simp [fireNodes, hr]
    | ok effs =>
      rw [runHandlers_append_ok ev kw _ _ effs hr, ← ih]
      simp [fireNodes, hr]

theorem fireNodes_trace_of_ok (ev : String) (kw : κ) (order : List (Node ε κ))
    (h : isOkE (fireNodes ev kw order).2 = true) :
    (fireNodes ev kw order).1 =
      order.flatMap (fun n => (runHandlers ev kw (nodeHandlers ev n)).1) := by
  induction order with
  | nil => rfl
  | cons n rest ih =>
    cases hr : (runHandlers ev kw (nodeHandlers ev n)).2 with
    | error exc => simp [fireNodes, hr, isOkE] at h
    | ok effs =>
      have hrest : isOkE (fireNodes ev kw rest).2 = true := by
        cases hr2 : (fireNodes ev kw rest).2 with
        | error e2 => simp [fireNodes, hr, hr2, isOkE, Except.map] at h
        | ok _ => simp [isOkE]
      simp [fireNodes, hr, List.flatMap_cons, ih hrest]

theorem fireNodes_trace_extends (ev : String) (kw : κ)
    (order : List (Node ε κ)) :
    ∃ t, order.flatMap (fun n => (runHandlers ev kw (nodeHandlers ev n)).1) =
      (fireNodes ev kw order).1 ++ t := by
  induction order with
  | nil => exact ⟨[], rfl⟩
  | cons n rest ih =>
    obtain ⟨t, ht⟩ := ih
    cases hr : (runHandlers ev kw (nodeHandlers ev n)).2 with
    | error exc =>
      refine ⟨rest.flatMap (fun n => (runHandlers ev kw (nodeHandlers ev n)).1),
        ?_⟩
      simp [fireNodes, hr, List.flatMap_cons]
    | ok effs =>
      refine ⟨t, ?_⟩
      simp [fireNodes, hr, List.flatMap_cons, ht, List.append_assoc]

/-! Partition, membership and count lemmas. -/

theorem ha_bound_none_of_flag {b : Handler ε κ}
    (h : (!b.ha_bound.isSome) = true) : b.ha_bound = none := by
  cases hob : b.ha_bound with
  | none => rfl
  | some v => rw [hob] at h; simp at h

theorem mem_sortHandlers {l : List (Handler ε κ)} {h : Handler ε κ} :
    h ∈ sortHandlers l ↔ h ∈ l := by
  unfold sortHandlers
  rw [List.mem_append, List.mem_filter, List.mem_filter]
  constructor
  · rintro (⟨hm, _⟩ | ⟨hm, _⟩) <;> exact hm
  · intro hm
    cases hb : h.ha_bound.isSome
    · right; exact ⟨hm, rfl⟩
    · left; exact ⟨hm, rfl⟩

theorem sortHandlers_pairwise (l : List (Handler ε κ)) :
    List.Pairwise (fun a b => a.ha_bound = none → b.ha_bound = none)
      (sortHandlers l) := by
  unfold sortHandlers
  rw [List.pairwise_append]
  refine ⟨?_, ?_, ?_⟩
  · apply List.pairwise_of_forall_mem_list
    intro a ha b _ hnone
    rw [List.mem_filter] at ha
    rw [hnone] at ha
    simp at ha
  · apply List.pairwise_of_forall_mem_list
    intro a _ b hb _
    rw [List.mem_filter] at hb
    exact ha_bound_none_of_flag hb.2
  · intro a ha b _ hnone
    rw [List.mem_filter] at ha
    rw [hnone] at ha
    simp at ha

theorem hasId_setUnion (a b : List (Handler ε κ)) (x : Nat) :
    hasId (setUnion a b) x = (hasId a x || hasId b x) := by
  apply Bool.eq_iff_iff.mpr
  rw [Bool.or_eq_true, hasId_iff, hasId_iff, hasId_iff]
  unfold setUnion
  constructor
  · rintro ⟨h, hm, hid⟩
    rw [List.mem_append] at hm
    cases hm with
    | inl hma => exact Or.inl ⟨h, hma, hid⟩
    | inr hmb => exact Or.inr ⟨h, (List.mem_filter.mp hmb).1, hid⟩
  · intro hor
    cases hor with
    | inl hA => obtain ⟨h, hma, hid⟩ := hA
                exact ⟨h, List.mem_append.mpr (Or.inl hma), hid⟩
    | inr hB =>
      obtain ⟨h, hmb, hid⟩ := hB
      by_cases hka : hasId a h.id = true
      · obtain ⟨g, hga, hgid⟩ := hasId_iff.mp hka
        exact ⟨g, List.mem_append.mpr (Or.inl hga), by rw [hgid, hid]⟩
      · have hAf : hasId a h.id = false := Bool.eq_false_iff.mpr hka
        refine ⟨h, List.mem_append.mpr (Or.inr (List.mem_filter.mpr
          ⟨hmb, ?_⟩)), hid⟩
        rw [hAf]
        rfl

theorem hasId_sortHandlers (l : List (Handler ε κ)) (x : Nat) :
    hasId (sortHandlers l) x = hasId l x := by
  apply Bool.eq_iff_iff.mpr
  rw [hasId_iff, hasId_iff]
  constructor
  · rintro ⟨h, hm, he⟩
    exact ⟨h, mem_sortHandlers.mp hm, he⟩
  · rintro ⟨h, hm, he⟩
    exact ⟨h, mem_sortHandlers.mpr hm, he⟩

theorem mem_get_hasKey {d : HandlersDict ε κ} {e : String} {h : Handler ε κ}
    (hm : h ∈ d.get e) : d.hasKey e = true := by
  unfold HandlersDict.get at hm
  unfold HandlersDict.hasKey
  cases hf : d.find e with
  | none => rw [hf] at hm; simp at hm
  | some l => rfl

theorem mem_candidates_of_wildcard {d : HandlersDict ε κ} {ev : String}
    {h : Handler ε κ} (hm : h ∈ d.get "*") : h ∈ candidates d ev := by
  have hk : d.hasKey "*" = true := mem_get_hasKey hm
  unfold candidates
  simp only [hk, if_true]
  unfold setUnion
  exact List.mem_append.mpr (Or.inl hm)

theorem hasId_candidates_of_specific {d : HandlersDict ε κ} {ev : String}
    {h : Handler ε κ} (hm : h ∈ d.get ev) :
    hasId (candidates d ev) h.id = true := by
  have hself : hasId (d.get ev) h.id = true := hasId_iff.mpr ⟨h, hm, rfl⟩
  unfold candidates
  cases hk : d.hasKey "*" with
  | false => simp only [Bool.false_eq_true, if_false]; exact hself
  | true => simp [hk, hasId_setUnion, hself]

theorem countP_filter_split (p q : Handler ε κ → Bool) (l : List (Handler ε κ)) :
    (l.filter q).countP p + (l.filter (fun a => !q a)).countP p = l.countP p := by
  induction l with
  | nil => rfl
  | cons a t ih =>
    cases hq : q a <;> cases hp : p a <;>
      simp [List.filter_cons, hq, List.countP_cons, hp, ← ih] <;> omega

theorem countP_sortHandlers (p : Handler ε κ → Bool) (l : List (Handler ε κ)) :
    (sortHandlers l).countP p = l.countP p := by
  unfold sortHandlers
  rw [List.countP_append]
  exact countP_filter_split p (fun h => h.ha_bound.isSome) l

theorem count_map_id (l : List (Handler ε κ)) (x : Nat) :
    (l.map (fun h => h.id)).count x = l.countP (fun h => h.id == x) := by
  induction l with
  | nil => rfl
  | cons h t ih => simp [List.count_cons, List.countP_cons, ih]

/-! Handler-table construction lemmas. -/

theorem hasId_get_insert (d : HandlersDict ε κ) (e : String) (m : Handler ε κ)
    (e' : String) (x : Nat) :
    hasId ((d.insert e m).get e') x =
      (hasId (d.get e') x || ((e == e') && (m.id == x))) := by
  by_cases he : e = e'
  · subst he
    rw [get_insert_self, hasId_setAdd]
    have : (e == e) = true := by rw [beq_iff_eq]
    simp [this]
  · rw [get_insert_other d e m e' he]
    have : (e == e') = false := by
      rw [Bool.eq_false_iff]
      intro hc
      exact he (beq_iff_eq.mp hc)
    simp [this]

theorem hasId_addEvents (m : Handler ε κ) (d : HandlersDict ε κ)
    (evs : List String) (e : String) (x : Nat) :
    hasId ((addEvents m d evs).get e) x =
      (hasId (d.get e) x || (evs.contains e && (m.id == x))) := by
  induction evs generalizing d with
  | nil => simp [addEvents]
  | cons e0 es ih =>
    show hasId ((addEvents m (d.insert e0 m) es).get e) x = _
    rw [ih, hasId_get_insert, List.contains_cons, beq_flip e e0]
    cases hA : hasId (d.get e) x <;> cases hP : (e0 == e) <;>
      cases hQ : es.contains e <;> cases hC : (m.id == x) <;>
      simp [hA, hP, hQ, hC]

theorem hasId_buildFrom (propnames : List String) (d : HandlersDict ε κ)
    (l : List (String × Handler ε κ)) (e : String) (x : Nat) :
    hasId ((buildFrom propnames d l).get e) x =
      (hasId (d.get e) x ||
        l.any (fun p => !(propnames.contains p.1) && ishandler p.2
          && ((p.2.ha_events.getD []).contains e) && (p.2.id == x))) := by
  induction l generalizing d with
  | nil => simp [buildFrom]
  | cons p rest ih =>
    obtain ⟨name, m⟩ := p
    cases hn : propnames.contains name with
    | true =>
      have hmem : name ∈ propnames := by simpa using hn
      simp [buildFrom, hn, hmem, ih, List.any_cons]
    | false =>
      have hmem : ¬ (name ∈ propnames) := by simpa using hn
      cases hh : ishandler m with
      | false => simp [buildFrom, hn, hmem, hh, ih, List.any_cons]
      | true =>
        have hstep : buildFrom propnames d ((name, m) :: rest) =
            buildFrom propnames (addEvents m d (m.ha_events.getD [])) rest := by
          simp [buildFrom, hn, hmem, hh]
        rw [hstep, ih, hasId_addEvents, List.any_cons]
        cases hA : hasId (d.get e) x <;>
          cases hC : (m.id == x) <;>
          by_cases hQ : e ∈ m.ha_events.getD [] <;>
          cases hR : rest.any (fun p => !(propnames.contains p.1)
            && ishandler p.2 && ((p.2.ha_events.getD []).contains e)
            && (p.2.id == x)) <;>
          simp_all

/-! The claims. -/

/-- C1: for every emitter whose `events_enabled` field is false, `fire_event`
and `fire_event_pre` return the empty effect list and invoke no handler at
all (the invocation trace is empty), for any event name and arguments. -/
theorem disabled_fire_is_noop (em : Emitter ε κ) (ev : String) (kw : κ)
    (hdis : em.events_enabled = false) :
    fire_event em ev kw = ([], .ok []) ∧
      fire_event_pre em ev kw = ([], .ok []) := by
  unfold fire_event fire_event_pre fire_event_in_order
  simp [hdis]

/-- Witness for C1 at a concrete disabled emitter. -/
theorem disabled_fire_is_noop_check :
    emDisabledW.events_enabled = false
    ∧ fire_event emDisabledW "x" () = ([], Except.ok [])
    ∧ fire_event_pre emDisabledW "x" () = ([], Except.ok []) :=
  ⟨rfl, (disabled_fire_is_noop emDisabledW "x" () rfl).1,
    (disabled_fire_is_noop emDisabledW "x" () rfl).2⟩

/-- C2: on an enabled emitter, `fire_event` walks the nodes
`reversed(mro)` (most-base first, most-derived last) followed by the object
itself, and `fire_event_pre` walks the object first followed by `mro`
(most-derived first); the invocation trace is a prefix of the node-by-node
concatenation of per-node invocations, with equality whenever no handler
raises — so all handlers of an earlier node run before any handler of a
later node. -/
theorem fire_event_traversal_order (em : Emitter ε κ) (ev : String) (kw : κ)
    (hen : em.events_enabled = true) :
    (∃ t, (em.mro.reverse ++ [em.selfNode]).flatMap
        (fun n => (runHandlers ev kw (nodeHandlers ev n)).1)
        = (fire_event em ev kw).1 ++ t)
    ∧ (isOkE (fire_event em ev kw).2 = true →
        (fire_event em ev kw).1 = (em.mro.reverse ++ [em.selfNode]).flatMap
          (fun n => (runHandlers ev kw (nodeHandlers ev n)).1))
    ∧ (∃ t, (em.selfNode :: em.mro).flatMap
        (fun n => (runHandlers ev kw (nodeHandlers ev n)).1)
        = (fire_event_pre em ev kw).1 ++ t)
    ∧ (isOkE (fire_event_pre em ev kw).2 = true →
        (fire_event_pre em ev kw).1 = (em.selfNode :: em.mro).flatMap
          (fun n => (runHandlers ev kw (nodeHandlers ev n)).1)) := by
  unfold fire_event fire_event_pre fire_event_in_order
  simp only [hen, if_true]
  exact ⟨fireNodes_trace_extends ev kw _,
    fun h => fireNodes_trace_of_ok ev kw _ h,
    fireNodes_trace_extends ev kw _,
    fun h => fireNodes_trace_of_ok ev kw _ h⟩

/-- Witness for C2 at a concrete enabled emitter (class node, a node
without a handler table, and the instance). -/
theorem fire_event_traversal_order_check :
    (fire_event emW "x" ()).1 = (emW.mro.reverse ++ [emW.selfNode]).flatMap
      (fun n => (runHandlers "x" () (nodeHandlers "x" n)).1)
    ∧ (fire_event_pre emW "x" ()).1 = (emW.selfNode :: emW.mro).flatMap
      (fun n => (runHandlers "x" () (nodeHandlers "x" n)).1) :=
  ⟨(fire_event_traversal_order emW "x" () rfl).2.1 (by decide),
   (fire_event_traversal_order emW "x" () rfl).2.2.2 (by decide)⟩

/-- C3 counterexample: the engine sorts by *presence* of the `ha_bound`
attribute, not by its value.  At a node registering, in this order, a
handler carrying `ha_bound = False` (id 1), a handler carrying
`ha_bound = True` (id 2) and a handler lacking the attribute (id 3), the
firing trace is `[1, 2, 3]`: the `bound = false` handler is invoked before
the `bound = true` handler, and the unbound partition contains only id 3 —
the `bound = false` handler is not placed in it, contrary to the claim. -/
theorem bound_false_partition_cex :
    cexF.ha_bound = some false ∧ cexT.ha_bound = some true
    ∧ (fire_event cexEm3 "x" ()).1 = [1, 2, 3]
    ∧ ((candidates cexD3 "x").filter
        (fun h => !h.ha_bound.isSome)).map (fun h => h.id) = [3] :=
  ⟨rfl, rfl, by decide, by decide⟩

/-- C3 amended: at every dispatch node, every candidate handler *carrying*
the `ha_bound` attribute (whatever its value) is invoked before every
handler lacking it (once the invocation sequence reaches a handler without
the attribute, all later handlers also lack it); a handler carrying
`bound = false` is placed in the attribute-present (bound) partition. -/
theorem bound_attr_partition (ev : String) (n : Node ε κ) :
    List.Pairwise (fun a b => a.ha_bound = none → b.ha_bound = none)
      (nodeHandlers ev n)
    ∧ ∀ l : List (Handler ε κ), ∀ h ∈ l, h.ha_bound.isSome = true →
        h ∈ l.filter (fun g => g.ha_bound.isSome)
        ∧ sortHandlers l = l.filter (fun g => g.ha_bound.isSome)
            ++ l.filter (fun g => !g.ha_bound.isSome) := by
  constructor
  · cases n with
    | none => exact List.Pairwise.nil
    | some d => exact sortHandlers_pairwise _
  · intro l h hm hb
    exact ⟨List.mem_filter.mpr ⟨hm, hb⟩, rfl⟩

/-- Witness for C3 amended: the `bound = false` handler lands in the
attribute-present partition of the counterexample node. -/
theorem bound_attr_partition_check :
    cexF ∈ ([cexF, cexT, cexN].filter (fun g => g.ha_bound.isSome)) :=
  ((bound_attr_partition "x" (some cexD3)).2 [cexF, cexT, cexN] cexF
    (List.Mem.head _) rfl).1

/-- C4: if, on an enabled emitter, the handler sequence of a firing call
splits as `pre ++ hc :: post` where every handler of `pre` returns normally
and `hc` raises `exc`, then the call returns the propagated exception `exc`
(no effect list at all — accumulated effects are discarded) and the trace
stops at `hc`: no handler of `post` (same node or later nodes) is invoked.
Both `fire_event` and `fire_event_pre` delegate to `fire_event_in_order`,
so the statement covers both entry points via their traversal orders. -/
theorem handler_exception_aborts (em : Emitter ε κ) (order : List (Node ε κ))
    (ev : String) (kw : κ) (pre post : List (Handler ε κ)) (hc : Handler ε κ)
    (exc : Nat) (hen : em.events_enabled = true)
    (hsplit : order.flatMap (nodeHandlers ev) = pre ++ hc :: post)
    (hpre : ∀ g ∈ pre, isOkE (g.run ev kw) = true)
    (hr : hc.run ev kw = .error exc) :
    fire_event_in_order em order ev kw =
      (pre.map (fun h => h.id) ++ [hc.id], .error exc) := by
  unfold fire_event_in_order
  simp only [hen, if_true]
  rw [fireNodes_eq_runHandlers, hsplit]
  exact runHandlers_error_split ev kw pre hc post exc hpre hr

/-- Witness for C4: handler 1 succeeds with effects `[7]`, handler 2
raises `5`; the call returns the exception, the effects are discarded,
and handler 3 is never invoked. -/
theorem handler_exception_aborts_check :
    fire_event_in_order emErrW [some errDictW] "x" ()
      = ([1, 2], Except.error 5) :=
  handler_exception_aborts emErrW [some errDictW] "x" ()
    [wOk 1 (some true) (some [7])] [wOk 3 none none] (wErr 2 5) 5
    rfl rfl (by decide) rfl

/-- C5: on an enabled emitter, when every handler of the firing call
returns normally, the call invokes exactly the handler sequence of the
traversal and returns the concatenation, in invocation order, of the
elements of each non-`None` return value (`None` and empty iterables
contribute nothing). -/
theorem effect_aggregation (em : Emitter ε κ) (order : List (Node ε κ))
    (ev : String) (kw : κ) (hen : em.events_enabled = true)
    (hok : ∀ g ∈ order.flatMap (nodeHandlers ev), isOkE (g.run ev kw) = true) :
    fire_event_in_order em order ev kw =
      ((order.flatMap (nodeHandlers ev)).map (fun h => h.id),
       .ok ((order.flatMap (nodeHandlers ev)).flatMap (okEffects ev kw))) := by
  unfold fire_event_in_order
  simp only [hen, if_true]
  rw [fireNodes_eq_runHandlers]
  exact runHandlers_all_ok ev kw _ hok

/-- Witness for C5: a class handler returning `[1, 2]` then an instance
handler returning `[3]` aggregate to `[1, 2, 3]`. -/
theorem effect_aggregation_check :
    fire_event emW "x" () = ([1, 2], Except.ok [1, 2, 3]) := by
  have h := effect_aggregation emW (emW.mro.reverse ++ [emW.selfNode]) "x" ()
    rfl (by decide)
  show fire_event_in_order emW (emW.mro.reverse ++ [emW.selfNode]) "x" ()
    = ([1, 2], Except.ok [1, 2, 3])
  rw [h]
  rfl

/-- C6: a handler registered at a node under the wildcard name `"*"` is
invoked when any event is dispatched to that node, and in addition — not
instead — every handler registered there under the fired event name is
invoked too (both identities appear in the node's invocation trace). -/
theorem wildcard_additional_dispatch (d : HandlersDict ε κ) (ev : String)
    (kw : κ) (h : Handler ε κ) (hw : h ∈ d.get "*")
    (hok : ∀ g ∈ nodeHandlers ev (some d), isOkE (g.run ev kw) = true) :
    h.id ∈ (runHandlers ev kw (nodeHandlers ev (some d))).1
    ∧ ∀ h' ∈ d.get ev,
        h'.id ∈ (runHandlers ev kw (nodeHandlers ev (some d))).1 := by
  rw [runHandlers_all_ok ev kw _ hok]
  constructor
  · exact List.mem_map.mpr
      ⟨h, mem_sortHandlers.mpr (mem_candidates_of_wildcard hw), rfl⟩
  · intro h' hm
    obtain ⟨g, hg, hgid⟩ := hasId_iff.mp (hasId_candidates_of_specific hm)
    exact List.mem_map.mpr ⟨g, mem_sortHandlers.mpr hg, hgid⟩

/-- Witness for C6: at a node with a wildcard handler (id 9) and a
specific handler for `"x"` (id 1), firing `"x"` invokes both. -/
theorem wildcard_additional_dispatch_check :
    (9 : Nat) ∈ (runHandlers "x" () (nodeHandlers "x" (some wildDictW))).1
    ∧ (1 : Nat) ∈ (runHandlers "x" () (nodeHandlers "x" (some wildDictW))).1 := by
  have h := wildcard_additional_dispatch wildDictW "x" ()
    (wOk 9 none (some [9])) (List.Mem.head _) (by decide)
  exact ⟨h.1, h.2 (wOk 1 (some true) (some [1, 2])) (List.Mem.head _)⟩

/-- C7: handler-table construction applies the handler predicate only to
members whose name is outside the declared property-name set (so no
managed attribute is ever evaluated, and construction — a total function —
cannot raise), and the table contains, under each event name, exactly the
identities of the directly declared, non-excluded members that pass
`ishandler` and are marked for that event. -/
theorem handler_table_construction (dict_ : List (String × Handler ε κ))
    (propnames : List String) :
    (∀ n ∈ scannedMembers dict_ propnames, propnames.contains n = false)
    ∧ ∀ e : String, ∀ x : Nat,
        hasId ((buildHandlers dict_ propnames).get e) x =
          dict_.any (fun p => !(propnames.contains p.1) && ishandler p.2
            && ((p.2.ha_events.getD []).contains e) && (p.2.id == x)) := by
  constructor
  · intro n hn
    unfold scannedMembers at hn
    have := (List.mem_filter.mp hn).2
    cases hc : propnames.contains n with
    | false => rfl
    | true => rw [hc] at this; simp at this
  · intro e x
    unfold buildHandlers
    rw [hasId_buildFrom]
    have hempty : hasId ((⟨[]⟩ : HandlersDict ε κ).get e) x = false := rfl
    rw [hempty]
    simp

/-- Witness for C7: member `"p"` (id 4) is handler-marked but named in the
property set, so it is absent from the table; member `"h"` (id 5) is
registered. -/
theorem handler_table_construction_check :
    hasId ((buildHandlers dictW7 ["p"]).get "x") 4 = false
    ∧ hasId ((buildHandlers dictW7 ["p"]).get "x") 5 = true := by
  constructor
  · rw [(handler_table_construction dictW7 ["p"]).2 "x" 4]
    decide
  · rw [(handler_table_construction dictW7 ["p"]).2 "x" 5]
    decide

/-- C8 counterexample: when the handler is already registered,
`add_handler` is a set-level no-op and the following `remove_handler`
deletes it, so the pair of calls does change the instance-level state:
the handler set for `"x"` goes from `[cf8]` (id 5) to `[]`. -/
theorem add_remove_changes_state_cex :
    ¬ ((((remove_handler (add_handler cexD8 "x" cf8) "x" cf8).1).get "x").map
        (fun h => h.id)
      = ((cexD8.get "x").map (fun h => h.id))) := by decide

/-- C8 amended: `remove_handler` raises the NotRegistered condition exactly
when the handler identity is absent from the instance-level set for that
event; and — provided the handler was *not* already registered there —
`add_handler` immediately followed by `remove_handler` succeeds and leaves
every event's instance-level handler set unchanged (the dict may retain a
materialised empty entry, which is observationally the empty set). -/
theorem remove_notregistered_add_remove_restore (d : HandlersDict ε κ)
    (e : String) (f : Handler ε κ) :
    ((remove_handler d e f).2 = true ↔ hasId (d.get e) f.id = false)
    ∧ (hasId (d.get e) f.id = false →
        (remove_handler (add_handler d e f) e f).2 = false
        ∧ ∀ e', ((remove_handler (add_handler d e f) e f).1).get e'
            = d.get e') := by
  constructor
  · simp only [remove_handler]
    rw [get_ensure]
    cases hid : hasId (d.get e) f.id <;> simp [hid]
  · intro hid
    have hk : (add_handler d e f).hasKey e = true := hasKey_insert_self d e f
    have hens : (add_handler d e f).ensure e = add_handler d e f :=
      ensure_of_hasKey _ e hk
    have hget : (add_handler d e f).get e = d.get e ++ [f] := by
      show (d.insert e f).get e = d.get e ++ [f]
      rw [get_insert_self]
      unfold setAdd
      rw [hid]
      simp
    have hhas : hasId ((add_handler d e f).get e) f.id = true := by
      rw [hget]
      simp [hasId, List.any_append]
    constructor
    · simp only [remove_handler]
      rw [hens, hhas]
      simp
    · intro e'
      have hres : (remove_handler (add_handler d e f) e f).1
          = (add_handler d e f).updateAt e (fun l => setRemove l f.id) := by
        simp only [remove_handler]
        rw [hens, hhas]
        simp
      rw [hres]
      by_cases he : e = e'
      · subst he
        rw [get_updateAt_self _ _ _ hk, hget]
        unfold setRemove
        rw [List.filter_append]
        have h1 : (d.get e).filter (fun h => !(h.id == f.id)) = d.get e :=
          setRemove_of_not_mem _ _ hid
        have h2 : ([f] : List (Handler ε κ)).filter
            (fun h => !(h.id == f.id)) = [] := by simp
        rw [h1, h2, List.append_nil]
      · rw [get_updateAt_other _ _ _ _ he]
        show (d.insert e f).get e' = d.get e'
        exact get_insert_other d e f e' he

/-- Witness for C8 amended: removing a never-registered handler raises
NotRegistered, and add-then-remove on a fresh dict restores the (empty)
handler set for `"x"`. -/
theorem remove_notregistered_add_remove_restore_check :
    (remove_handler (⟨[]⟩ : HandlersDict Nat Unit) "x" cf8).2 = true
    ∧ ((remove_handler (add_handler (⟨[]⟩ : HandlersDict Nat Unit) "x" cf8)
        "x" cf8).1).get "x" = (⟨[]⟩ : HandlersDict Nat Unit).get "x" := by
  have h := remove_notregistered_add_remove_restore
    (⟨[]⟩ : HandlersDict Nat Unit) "x" cf8
  exact ⟨h.1.mpr (by decide), (h.2 (by decide)).2 "x"⟩

/-- C9: `add_handler`/`remove_handler` on one object touch only that
object's instance-level dict: the class-level tables are untouched and
every other object's instance-level dict is unchanged. -/
theorem registration_frame (w : World ε κ) (o : Nat) (e : String)
    (f : Handler ε κ) :
    (World.addHandler w o e f).classTables = w.classTables
    ∧ (∀ o', o' ≠ o → (World.addHandler w o e f).instances o' = w.instances o')
    ∧ (World.removeHandler w o e f).1.classTables = w.classTables
    ∧ (∀ o', o' ≠ o →
        (World.removeHandler w o e f).1.instances o' = w.instances o') := by
  refine ⟨rfl, ?_, rfl, ?_⟩ <;> intro o' ho <;>
    simp [World.addHandler, World.removeHandler, ho]

/-- Witness for C9: registering on object 0 leaves object 1 untouched. -/
theorem registration_frame_check :
    (World.addHandler worldW 0 "x" cf8).instances 1 = worldW.instances 1
    ∧ (World.removeHandler worldW 0 "x" cf8).1.instances 1
        = worldW.instances 1 :=
  ⟨(registration_frame worldW 0 "x" cf8).2.1 1 (by decide),
   (registration_frame worldW 0 "x" cf8).2.2.2 1 (by decide)⟩

/-- C10: when one handler identity is registered at a node both under the
fired event and under `"*"` (once each, set semantics), the union of the
two candidate sets deduplicates it: it occurs exactly once among the
node's executed handlers, and — when no handler raises — exactly once in
the node's invocation trace. -/
theorem dual_registration_once (d : HandlersDict ε κ) (ev : String) (kw : κ)
    (x : Nat) (hw : (d.get "*").countP (fun h => h.id == x) = 1)
    (hs : hasId (d.get ev) x = true)
    (hok : ∀ g ∈ nodeHandlers ev (some d), isOkE (g.run ev kw) = true) :
    (nodeHandlers ev (some d)).countP (fun h => h.id == x) = 1
    ∧ (runHandlers ev kw (nodeHandlers ev (some d))).1.count x = 1 := by
  have hkey : d.hasKey "*" = true := by
    have hpos : 0 < (d.get "*").countP (fun h => h.id == x) := by
      rw [hw]; exact Nat.one_pos
    obtain ⟨g, hg, _⟩ := List.countP_pos_iff.mp hpos
    exact mem_get_hasKey hg
  have hwx : hasId (d.get "*") x = true := by
    have hpos : 0 < (d.get "*").countP (fun h => h.id == x) := by
      rw [hw]; exact Nat.one_pos
    obtain ⟨g, hg, hgx⟩ := List.countP_pos_iff.mp hpos
    exact hasId_iff.mpr ⟨g, hg, beq_iff_eq.mp hgx⟩
  have hcand : (candidates d ev).countP (fun h => h.id == x) = 1 := by
    unfold candidates
    simp only [hkey, if_true]
    unfold setUnion
    rw [List.countP_append, hw]
    have hzero : (((d.get ev).filter
        (fun h => !(hasId (d.get "*") h.id))).countP
          (fun h => h.id == x)) = 0 := by
      rw [List.countP_eq_zero]
      intro a ha hax
      have haid : a.id = x := beq_iff_eq.mp hax
      have := (List.mem_filter.mp ha).2
      rw [haid, hwx] at this
      simp at this
    rw [hzero]
  have hnode : (nodeHandlers ev (some d)).countP (fun h => h.id == x) = 1 := by
    show (sortHandlers (candidates d ev)).countP _ = 1
    rw [countP_sortHandlers]
    exact hcand
  refine ⟨hnode, ?_⟩
  rw [runHandlers_all_ok ev kw _ hok]
  show ((nodeHandlers ev (some d)).map (fun h => h.id)).count x = 1
  rw [count_map_id]
  exact hnode

/-- Witness for C10: id 7 is registered under both `"x"` and `"*"` at
`dupDictW`; it is executed exactly once. -/
theorem dual_registration_once_check :
    (nodeHandlers "x" (some dupDictW)).countP (fun h => h.id == 7) = 1
    ∧ (runHandlers "x" () (nodeHandlers "x" (some dupDictW))).1.count 7 = 1 :=
  dual_registration_once dupDictW "x" () 7 (by decide) (by decide) (by decide)

end QubesEvents
